import Mathlib

/-!
Shallow embedding of the rust-fesl-codec sources (`src/fesl.rs`, `src/gamespy.rs`)
and proofs about the behaviour of the two codecs.

Bytes are modelled as `Nat` (all values produced or consumed are `< 256`; the
byte values themselves are only compared for equality or packed into big-endian
words with explicit `% 2 ^ w` arithmetic).  Rust `&str` values are modelled as
their UTF-8 byte lists, `&[u8]` slices as `List Nat`, and the mutable iterator
state (`self.src`) is threaded explicitly.  Fallible operations return
`Except`/`Option`; a Rust panic (out-of-bounds index or arithmetic underflow)
is modelled by a dedicated outcome constructor.
-/

set_option maxRecDepth 4096

/-! ### UTF-8 validation

Models `core::str::from_utf8` succeeding: the standard UTF-8 well-formedness
check (rejecting overlong encodings, surrogates and values above U+10FFFF),
exactly the byte-level acceptance condition of Rust's validator. -/

/-- Continuation byte: `0x80..=0xBF`. -/
def utf8Cont (b : Nat) : Bool := decide (0x80 ≤ b) && decide (b ≤ 0xbf)

/-- Whether a byte list is valid UTF-8, as decided by `str::from_utf8`. -/
def validUtf8 : List Nat → Bool
  | [] => true
  | b :: rest =>
    if b ≤ 0x7f then validUtf8 rest
    else if b < 0xc2 then false
    else if b ≤ 0xdf then
      match rest with
      | c1 :: rest2 => utf8Cont c1 && validUtf8 rest2
      | [] => false
    else if b ≤ 0xef then
      match rest with
      | c1 :: c2 :: rest2 =>
        (if b = 0xe0 then decide (0xa0 ≤ c1) && decide (c1 ≤ 0xbf)
         else if b = 0xed then decide (0x80 ≤ c1) && decide (c1 ≤ 0x9f)
         else utf8Cont c1) && utf8Cont c2 && validUtf8 rest2
      | _ => false
    else if b ≤ 0xf4 then
      match rest with
      | c1 :: c2 :: c3 :: rest2 =>
        (if b = 0xf0 then decide (0x90 ≤ c1) && decide (c1 ≤ 0xbf)
         else if b = 0xf4 then decide (0x80 ≤ c1) && decide (c1 ≤ 0x8f)
         else utf8Cont c1) && utf8Cont c2 && utf8Cont c3 && validUtf8 rest2
      | _ => false
    else false

/-! ### Big-endian 32-bit words (the `byteorder` crate, `BigEndian`) -/

/-- `BigEndian::read_u32`: decode the first four bytes of a slice. -/
def beRead32 (l : List Nat) : Nat :=
  l.getD 0 0 * 2 ^ 24 + l.getD 1 0 * 2 ^ 16 + l.getD 2 0 * 2 ^ 8 + l.getD 3 0

/-- `write_u32::<BigEndian>`: the four big-endian bytes of a `u32` value. -/
def be32 (n : Nat) : List Nat :=
  [n / 2 ^ 24 % 256, n / 2 ^ 16 % 256, n / 2 ^ 8 % 256, n % 256]

/-! ### FESL data model (`src/fesl.rs`) -/

/-- The `FeslMessageType` enum with discriminants 0xc0/0x80/0xf0/0xb0. -/
inductive FeslMessageType
  | SingleClient
  | SingleServer
  | MultiClient
  | MultiServer
deriving DecidableEq

/-- Discriminant value of a `FeslMessageType` (the `as u32` cast). -/
def FeslMessageType.val : FeslMessageType → Nat
  | .SingleClient => 0xc0
  | .SingleServer => 0x80
  | .MultiClient => 0xf0
  | .MultiServer => 0xb0

/-- `FeslMessageType::from_u8` (derived by `Primitive`): the exact closed
mapping from discriminant bytes to variants, `none` otherwise. -/
def FeslMessageType.from_u8 (v : Nat) : Option FeslMessageType :=
  if v = 0xc0 then some .SingleClient
  else if v = 0x80 then some .SingleServer
  else if v = 0xf0 then some .MultiClient
  else if v = 0xb0 then some .MultiServer
  else none

/-- The `FeslMessageError` enum (the `Utf8Error` payload is dropped). -/
inductive FeslMessageError
  | ExpectedDelimiter
  | ExpectedUtf8
  | InvalidCommandLength
  | InvalidType
deriving DecidableEq

/-- `FeslMessage`: an owned immutable byte buffer. -/
structure FeslMessage where
  data : List Nat
deriving DecidableEq

/-- Outcome of `FeslMessage::from_read`.  `ioError` models a `read_exact`
failure (stream closed inside the 12-byte header).  `lenUnderflow` models the
unchecked `len - 12` usize subtraction when the decoded length field is below
12: in a debug build this panics with an arithmetic underflow, in a release
build it wraps to a huge `take` limit and `read_to_end` swallows the rest of
the stream — in neither build is a typed invalid-length error produced (the
error enum has no such variant). -/
inductive FeslFromReadResult
  | ok (msg : FeslMessage)
  | ioError
  | lenUnderflow
deriving DecidableEq

/-- `FeslMessage::from_read`, reading from a stream modelled as the full list
of bytes the reader can ever deliver (end-of-stream afterwards).  Reads a
12-byte header with `read_exact`, decodes bytes 8..12 as the big-endian total
length, then reads the body with `take(len - 12).read_to_end(..)` — which
stops quietly at end-of-stream, so a short body is NOT an error. -/
def FeslMessage.from_read (stream : List Nat) : FeslFromReadResult :=
  if stream.length < 12 then .ioError
  else
    let header := stream.take 12
    let len := beRead32 (header.drop 8)
    if len < 12 then .lenUnderflow
    else .ok ⟨header ++ (stream.drop 12).take (len - 12)⟩

/-- `FeslMessage::get_cmd`: `str::from_utf8(&self.data[0..4])`. -/
def FeslMessage.get_cmd (m : FeslMessage) : Option (List Nat) :=
  if validUtf8 (m.data.take 4) then some (m.data.take 4) else none

/-- `FeslMessage::get_type`: top nibble of byte 4, decoded through `from_u8`. -/
def FeslMessage.get_type (m : FeslMessage) : Except FeslMessageError FeslMessageType :=
  match FeslMessageType.from_u8 (m.data.getD 4 0 &&& 0xf0) with
  | some t => .ok t
  | none => .error .InvalidType

/-- `FeslMessage::get_id`: `BigEndian::read_u32(&self.data[4..12]) & 0xfffffff`
(`read_u32` only consumes the first four bytes of the slice). -/
def FeslMessage.get_id (m : FeslMessage) : Nat :=
  beRead32 ((m.data.drop 4).take 8) &&& 0xfffffff

/-! ### FESL body iterator (`FeslMessageIterator`)

The iterator owns a slice `src`; the state is threaded explicitly. -/

instance {ε α : Type} [DecidableEq ε] [DecidableEq α] : DecidableEq (Except ε α) := fun
  | .ok a, .ok b =>
    if h : a = b then .isTrue (by rw [h]) else .isFalse (by intro c; cases c; exact h rfl)
  | .error a, .error b =>
    if h : a = b then .isTrue (by rw [h]) else .isFalse (by intro c; cases c; exact h rfl)
  | .ok _, .error _ => .isFalse nofun
  | .error _, .ok _ => .isFalse nofun

/-- Item type yielded by the FESL iterator: `(key, value)` or an error. -/
def FeslItem := Except FeslMessageError (List Nat × List Nat)

instance : DecidableEq FeslItem := by
  unfold FeslItem
  infer_instance

/-- `FeslMessageIterator::index_of`: position of the first occurrence. -/
def feslIndexOf (src : List Nat) (token : Nat) : Option Nat :=
  src.findIdx? (fun x => x == token)

/-- `FeslMessageIterator::shift_slice`: split at the first `token`, returning
the prefix and advancing the state past the delimiter; `ExpectedDelimiter`
(state unchanged) when the token does not occur. -/
def feslShiftSlice (token : Nat) (src : List Nat) :
    Except FeslMessageError (List Nat) × List Nat :=
  match feslIndexOf src token with
  | none => (.error .ExpectedDelimiter, src)
  | some x => (.ok (src.take x), src.drop (x + 1))

/-- `FeslMessageIterator::shift_str`: `shift_slice` plus UTF-8 validation. -/
def feslShiftStr (token : Nat) (src : List Nat) :
    Except FeslMessageError (List Nat) × List Nat :=
  match feslShiftSlice token src with
  | (.ok val, s) =>
    if validUtf8 val then (.ok val, s) else (.error .ExpectedUtf8, s)
  | (.error e, s) => (.error e, s)

/-- `FeslMessageIterator::read`: a key delimited by `=` (byte 61) then a value
delimited by a newline (byte 10). -/
def feslRead (src : List Nat) : FeslItem × List Nat :=
  match feslShiftStr 61 src with
  | (.error e, s) => (.error e, s)
  | (.ok k, s) =>
    match feslShiftStr 10 s with
    | (.error e, s2) => (.error e, s2)
    | (.ok v, s2) => (.ok (k, v), s2)

/-- `FeslMessageIterator::end`: `self.src = &self.src[self.src.len()..]`. -/
def feslEnd (src : List Nat) : List Nat := src.drop src.length

/-- One call of `<FeslMessageIterator as Iterator>::next`, returning the item
and the successor state, or `none` when iteration is over. -/
def feslNext (src : List Nat) : Option (FeslItem × List Nat) :=
  if src.length = 0 then none
  else if src.length = 1 then
    match feslShiftSlice 0x00 src with
    | (.ok _, _) => none
    | (.error e, s) => some (.error e, feslEnd s)
  else
    match feslRead src with
    | (.ok p, s) => some (.ok p, s)
    | (.error e, s) => some (.error e, feslEnd s)

/-- Drive the FESL iterator to completion.  The fuel bounds the number of
`next` calls; `none` means the fuel ran out before the iterator finished. -/
def feslRunFuel : Nat → List Nat → Option (List FeslItem)
  | 0, _ => none
  | fuel + 1, src =>
    match feslNext src with
    | none => some []
    | some (it, rest) => (feslRunFuel fuel rest).map (fun l => it :: l)

/-- All items of the FESL iterator over `src` (fuel `src.length + 1` suffices
because every yielded item consumes at least one byte of state). -/
def feslRun (src : List Nat) : Option (List FeslItem) :=
  feslRunFuel (src.length + 1) src

/-- `IntoIterator for &FeslMessage`: iterate over `&self.data[12..]`. -/
def feslMsgItems (m : FeslMessage) : Option (List FeslItem) :=
  feslRun (m.data.drop 12)

/-! ### FESL message builder (`FeslMessageBuilder`) -/

/-- The builder's accumulated state (`cmd`, packed `type_and_id`, running
serialized length, pushed records in order). -/
structure FeslMessageBuilder where
  cmd : List Nat
  type_and_id : Nat
  len : Nat
  buf : List (List Nat × List Nat)
deriving DecidableEq

/-- `FeslMessageBuilder::new`: requires a 4-byte command and packs
`((type as u32) & 0xf0) << 24 | (id & 0xfffffff)`. -/
def FeslMessageBuilder.new (cmd : List Nat) (fesl_type : FeslMessageType) (id : Nat) :
    Except FeslMessageError FeslMessageBuilder :=
  if cmd.length ≠ 4 then .error .InvalidCommandLength
  else .ok ⟨cmd, ((fesl_type.val &&& 0xf0) <<< 24) ||| (id &&& 0xfffffff), 13, []⟩

/-- `FeslMessageBuilder::push`: record the pair and add its exact serialized
length `len(key) + 1 + len(value) + 1`. -/
def FeslMessageBuilder.push (b : FeslMessageBuilder) (key value : List Nat) :
    FeslMessageBuilder :=
  { b with
      len := b.len + (key.length + 1 + value.length + 1)
      buf := b.buf ++ [(key, value)] }

/-- Push a whole list of pairs in order. -/
def feslPushAll (b : FeslMessageBuilder) (ps : List (List Nat × List Nat)) :
    FeslMessageBuilder :=
  ps.foldl (fun b p => b.push p.1 p.2) b

/-- The record loop of `FeslMessageBuilder::build`: each pair serialized as
`key = value \n` (bytes 61 and 10). -/
def encodeRecords : List (List Nat × List Nat) → List Nat
  | [] => []
  | (k, v) :: rest => k ++ 61 :: (v ++ 10 :: encodeRecords rest)

/-- `FeslMessageBuilder::build`: command, big-endian `type_and_id`, big-endian
total length (`self.len as u32`, hence modulo `2 ^ 32`), the records, and the
trailing 0x00 terminator. -/
def FeslMessageBuilder.build (b : FeslMessageBuilder) : FeslMessage :=
  ⟨b.cmd ++ be32 b.type_and_id ++ be32 (b.len % 2 ^ 32) ++ encodeRecords b.buf ++ [0]⟩

/-! ### GameSpy data model (`src/gamespy.rs`) -/

/-- The `GameSpyPacketError` enum (the `Utf8Error` payload is dropped). -/
inductive GameSpyPacketError
  | ExpectedDelimiter
  | ExpectedUtf8
deriving DecidableEq

/-- `GameSpyPacket`: an owned immutable byte buffer. -/
structure GameSpyPacket where
  data : List Nat
deriving DecidableEq

/-- `GameSpyPacket::from_box`: wraps any buffer, with no validation at all. -/
def GameSpyPacket.from_box (data : List Nat) : GameSpyPacket := ⟨data⟩

/-- Item type yielded by the GameSpy iterator. -/
def GsItem := Except GameSpyPacketError (List Nat × List Nat)

instance : DecidableEq GsItem := by
  unfold GsItem
  infer_instance

/-- `GameSpyPacketIterator::shift_slice`.  The source reads `self.src[0]`
before any length check, so on an empty state the access is out of bounds and
the program panics — modelled by `none`.  Otherwise: `ExpectedDelimiter` if the
first byte is not a backslash (byte 92); else the token is sought in
`src[1..]`, and if absent the remainder of the slice is taken as the value. -/
def gsShiftSlice (token : Nat) (src : List Nat) :
    Option (Except GameSpyPacketError (List Nat) × List Nat) :=
  match src with
  | [] => none
  | b :: _ =>
    if b ≠ 92 then some (.error .ExpectedDelimiter, src)
    else
      let x := match (src.drop 1).findIdx? (fun y => y == token) with
               | some i => i + 1
               | none => src.length
      some (.ok ((src.drop 1).take (x - 1)), src.drop x)

/-- `GameSpyPacketIterator::shift_str`: `shift_slice` plus UTF-8 validation. -/
def gsShiftStr (token : Nat) (src : List Nat) :
    Option (Except GameSpyPacketError (List Nat) × List Nat) :=
  match gsShiftSlice token src with
  | none => none
  | some (.ok val, s) =>
    some (if validUtf8 val then (.ok val, s) else (.error .ExpectedUtf8, s))
  | some (.error e, s) => some (.error e, s)

/-- `GameSpyPacketIterator::read`: two backslash-delimited tokens. -/
def gsRead (src : List Nat) : Option (GsItem × List Nat) :=
  match gsShiftStr 92 src with
  | none => none
  | some (.error e, s) => some (.error e, s)
  | some (.ok k, s) =>
    match gsShiftStr 92 s with
    | none => none
    | some (.error e, s2) => some (.error e, s2)
    | some (.ok v, s2) => some (.ok (k, v), s2)

/-- `GameSpyPacketIterator::end`. -/
def gsEnd (src : List Nat) : List Nat := src.drop src.length

/-- Outcome of one `next` call on the GameSpy iterator. -/
inductive GsNextOut
  | done
  | yield (it : GsItem) (rest : List Nat)
  | panicked
deriving DecidableEq

/-- One call of `<GameSpyPacketIterator as Iterator>::next`. -/
def gsNext (src : List Nat) : GsNextOut :=
  if src.length = 0 then .done
  else
    match gsRead src with
    | none => .panicked
    | some (.ok p, s) => .yield (.ok p) s
    | some (.error e, s) => .yield (.error e) (gsEnd s)

/-- Outcome of driving the GameSpy iterator to completion. -/
inductive GsRunOut
  | yields (items : List GsItem)
  | panicked
  | fuelOut
deriving DecidableEq

/-- Drive the GameSpy iterator with fuel. -/
def gsRunFuel : Nat → List Nat → GsRunOut
  | 0, _ => .fuelOut
  | fuel + 1, src =>
    match gsNext src with
    | .done => .yields []
    | .panicked => .panicked
    | .yield it rest =>
      match gsRunFuel fuel rest with
      | .yields l => .yields (it :: l)
      | r => r

/-- All items of the GameSpy iterator over a body slice. -/
def gsRun (src : List Nat) : GsRunOut :=
  gsRunFuel (src.length + 1) src

/-- `IntoIterator for &GameSpyPacket`: the iterator views
`&self.data[..self.data.len() - 7]`.  When the buffer is shorter than 7 bytes
the usize subtraction underflows and the slice operation panics (`none`). -/
def GameSpyPacket.intoIter (p : GameSpyPacket) : Option (List Nat) :=
  if p.data.length < 7 then none
  else some (p.data.take (p.data.length - 7))

/-- Iterate a packet: body slice (or panic) then the item run. -/
def gsPacketItems (p : GameSpyPacket) : Option GsRunOut :=
  p.intoIter.map gsRun

/-! ### GameSpy packet builder (`GameSpyPacketBuilder`) -/

/-- Builder state: running length and the flat token list (keys and values
alternating, in push order). -/
structure GameSpyPacketBuilder where
  len : Nat
  buf : List (List Nat)
deriving DecidableEq

/-- `GameSpyPacketBuilder::new`. -/
def GameSpyPacketBuilder.new : GameSpyPacketBuilder := ⟨7, []⟩

/-- `GameSpyPacketBuilder::push`: append key then value. -/
def GameSpyPacketBuilder.push (b : GameSpyPacketBuilder) (key value : List Nat) :
    GameSpyPacketBuilder :=
  ⟨b.len + (1 + key.length + 1 + value.length), b.buf ++ [key, value]⟩

/-- Push a whole list of pairs in order. -/
def gsPushAll (b : GameSpyPacketBuilder) (ps : List (List Nat × List Nat)) :
    GameSpyPacketBuilder :=
  ps.foldl (fun b p => b.push p.1 p.2) b

/-- The token loop of `GameSpyPacketBuilder::build`: a backslash before each
token. -/
def encodeItems : List (List Nat) → List Nat
  | [] => []
  | s :: rest => 92 :: (s ++ encodeItems rest)

/-- The 7-byte GameSpy terminator, ASCII `\final\`. -/
def TERM : List Nat := [92, 102, 105, 110, 97, 108, 92]

/-- `GameSpyPacketBuilder::build`: the tokens followed by the terminator. -/
def GameSpyPacketBuilder.build (b : GameSpyPacketBuilder) : GameSpyPacket :=
  ⟨encodeItems b.buf ++ TERM⟩

/-! ### GameSpy streaming framer (`GameSpyPacketConsumer`)

The transport is modelled as the list of chunks successive `fill_buf` calls
deliver; an exhausted list models end-of-stream, where `fill_buf` keeps
returning an empty buffer. -/

/-- One step of the rank automaton in `GameSpyPacketConsumer::next`: advance on
a match, restart at 1 on a backslash, reset to 0 otherwise. -/
def gsStep (rank b : Nat) : Nat :=
  if b = TERM.getD rank 0 then rank + 1
  else if b = TERM.getD 0 0 then 1
  else 0

/-- The inner byte loop over one buffered chunk: returns the number of bytes
examined (all of them are appended to the accumulator) and the final rank; the
loop stops as soon as the rank reaches 7. -/
def scanChunk : Nat → List Nat → Nat × Nat
  | rank, [] => (0, rank)
  | rank, b :: rest =>
    let r := gsStep rank b
    if 7 ≤ r then (1, r)
    else
      let p := scanChunk r rest
      (p.1 + 1, p.2)

/-- `BufReader::consume`: drop the examined bytes from the buffered chunk; a
fully consumed chunk makes the next `fill_buf` pull the following one. -/
def gsConsume (i : Nat) : List (List Nat) → List (List Nat)
  | [] => []
  | c :: rest => if (c.drop i).length = 0 then rest else c.drop i :: rest

/-- Outcome of `GameSpyPacketConsumer::next`: a packet plus the remaining
buffered stream, or divergence (the loop has no exit that returns `None`, so
when the fuel — a bound on the number of `fill_buf` loop iterations — runs out
without a terminator the call has not returned). -/
inductive ConsumerOut
  | packet (p : GameSpyPacket) (rest : List (List Nat))
  | diverged
deriving DecidableEq

/-- The `loop` of `GameSpyPacketConsumer::next`, with the accumulator `msg`
and rank as explicit state (both start at empty/0 for each `next` call). -/
def consumerNextFuel : Nat → Nat → List Nat → List (List Nat) → ConsumerOut
  | 0, _, _, _ => .diverged
  | fuel + 1, rank, msg, chunks =>
    let buf := chunks.headD []
    let s := scanChunk rank buf
    let msg2 := msg ++ buf.take s.1
    let chunks2 := gsConsume s.1 chunks
    if 7 ≤ s.2 then .packet ⟨msg2⟩ chunks2
    else consumerNextFuel fuel s.2 msg2 chunks2

/-- `GameSpyPacketConsumer::next` on a buffered stream. -/
def consumerNext (fuel : Nat) (chunks : List (List Nat)) : ConsumerOut :=
  consumerNextFuel fuel 0 [] chunks

/-! ### Specification-side notions used by the claims -/

/-- Longest prefix of the terminator that is a suffix of `s` (capped at 7). -/
def maxBorder (s : List Nat) : Nat :=
  if TERM.take 7 <:+ s then 7
  else if TERM.take 6 <:+ s then 6
  else if TERM.take 5 <:+ s then 5
  else if TERM.take 4 <:+ s then 4
  else if TERM.take 3 <:+ s then 3
  else if TERM.take 2 <:+ s then 2
  else if TERM.take 1 <:+ s then 1
  else 0

/-- A complete wire packet: it ends with the terminator and no earlier prefix
of the byte sequence already ends with the terminator. -/
def CompletePacket (p : List Nat) : Prop :=
  TERM <:+ p ∧ ∀ i, i < p.length → ¬ TERM <:+ p.take i

instance (p : List Nat) : Decidable (CompletePacket p) := by
  unfold CompletePacket
  infer_instance

/-- Well-formed FESL pair: both sides are UTF-8 text (they come from `&str`)
containing neither `=` (61) nor a newline (10). -/
def WfFeslPair (p : List Nat × List Nat) : Prop :=
  validUtf8 p.1 = true ∧ validUtf8 p.2 = true ∧
    61 ∉ p.1 ∧ 10 ∉ p.1 ∧ 61 ∉ p.2 ∧ 10 ∉ p.2

instance (p : List Nat × List Nat) : Decidable (WfFeslPair p) := by
  unfold WfFeslPair
  infer_instance

/-- Well-formed GameSpy pair: both sides are UTF-8 text free of backslashes. -/
def WfGsPair (p : List Nat × List Nat) : Prop :=
  validUtf8 p.1 = true ∧ validUtf8 p.2 = true ∧ 92 ∉ p.1 ∧ 92 ∉ p.2

instance (p : List Nat × List Nat) : Decidable (WfGsPair p) := by
  unfold WfGsPair
  infer_instance

/-- Sum of the serialized record lengths of a list of FESL pairs. -/
def recordsLen : List (List Nat × List Nat) → Nat
  | [] => 0
  | (k, v) :: rest => k.length + 1 + v.length + 1 + recordsLen rest

/-! ### Arithmetic helpers -/

theorem mask28_eq_mod (x : Nat) : x &&& 0xfffffff = x % 2 ^ 28 := by
  have h : (0xfffffff : Nat) = 2 ^ 28 - 1 := by norm_num
  rw [h, Nat.and_pow_two_sub_one_eq_mod]

theorem typeAndId_eq (t : FeslMessageType) (id : Nat) :
    ((t.val &&& 0xf0) <<< 24) ||| (id &&& 0xfffffff) = t.val * 2 ^ 24 + id % 2 ^ 28 := by
  have hlt : id % 2 ^ 28 < 2 ^ 28 := Nat.mod_lt _ (by norm_num)
  rw [mask28_eq_mod]
  cases t
  · rw [(by decide : ((FeslMessageType.SingleClient.val &&& 0xf0) <<< 24) = 2 ^ 28 * 12),
      ← Nat.mul_add_lt_is_or hlt]
    show _ = FeslMessageType.SingleClient.val * 2 ^ 24 + _
    norm_num [FeslMessageType.val]
  · rw [(by decide : ((FeslMessageType.SingleServer.val &&& 0xf0) <<< 24) = 2 ^ 28 * 8),
      ← Nat.mul_add_lt_is_or hlt]
    show _ = FeslMessageType.SingleServer.val * 2 ^ 24 + _
    norm_num [FeslMessageType.val]
  · rw [(by decide : ((FeslMessageType.MultiClient.val &&& 0xf0) <<< 24) = 2 ^ 28 * 15),
      ← Nat.mul_add_lt_is_or hlt]
    show _ = FeslMessageType.MultiClient.val * 2 ^ 24 + _
    norm_num [FeslMessageType.val]
  · rw [(by decide : ((FeslMessageType.MultiServer.val &&& 0xf0) <<< 24) = 2 ^ 28 * 11),
      ← Nat.mul_add_lt_is_or hlt]
    show _ = FeslMessageType.MultiServer.val * 2 ^ 24 + _
    norm_num [FeslMessageType.val]

theorem typeVal_le (t : FeslMessageType) : t.val ≤ 240 := by
  cases t <;> decide

theorem typeAndId_lt (t : FeslMessageType) (id : Nat) :
    ((t.val &&& 0xf0) <<< 24) ||| (id &&& 0xfffffff) < 2 ^ 32 := by
  rw [typeAndId_eq]
  have h1 := typeVal_le t
  have h2 : id % 2 ^ 28 < 2 ^ 28 := Nat.mod_lt _ (by norm_num)
  norm_num at h2 ⊢
  omega

theorem beRead32_append_be32 (n : Nat) (r : List Nat) (h : n < 2 ^ 32) :
    beRead32 (be32 n ++ r) = n := by
  simp only [beRead32, be32, List.cons_append, List.nil_append,
    List.getD_cons_zero, List.getD_cons_succ]
  norm_num at h ⊢
  omega

theorem beRead32_take (l : List Nat) (n : Nat) (h : 4 ≤ n) :
    beRead32 (l.take n) = beRead32 l := by
  unfold beRead32
  simp only [List.getD_eq_getElem?_getD]
  rw [List.getElem?_take_of_lt (by omega : 0 < n), List.getElem?_take_of_lt (by omega : 1 < n),
    List.getElem?_take_of_lt (by omega : 2 < n), List.getElem?_take_of_lt (by omega : 3 < n)]

/-! ### List scanning helpers -/

theorem findIdx_clean {k : List Nat} {t : Nat} (hmem : t ∉ k) (tail : List Nat) (i : Nat) :
    (k ++ t :: tail).findIdx? (fun x => x == t) i = some (i + k.length) := by
  induction k generalizing i with
  | nil => simp [List.findIdx?_cons]
  | cons a k ih =>
    simp only [List.mem_cons, not_or] at hmem
    have ha : (a == t) = false := beq_eq_false_iff_ne.mpr (fun e => hmem.1 e.symm)
    rw [List.cons_append, List.findIdx?_cons, ha]
    simp only [Bool.false_eq_true, if_false]
    rw [ih hmem.2]
    simp only [List.length_cons, Option.some.injEq]
    omega

theorem findIdx_none {l : List Nat} {t : Nat} (hmem : t ∉ l) (i : Nat) :
    l.findIdx? (fun x => x == t) i = none := by
  induction l generalizing i with
  | nil => simp
  | cons a l ih =>
    simp only [List.mem_cons, not_or] at hmem
    have ha : (a == t) = false := beq_eq_false_iff_ne.mpr (fun e => hmem.1 e.symm)
    rw [List.findIdx?_cons, ha]
    simp only [Bool.false_eq_true, if_false]
    exact ih hmem.2 (i + 1)

theorem drop_len_succ (k tail : List Nat) (a : Nat) :
    (k ++ a :: tail).drop (k.length + 1) = tail := by
  rw [← List.drop_drop, List.drop_left]
  rfl

/-! ### FESL iterator on well-formed records -/

theorem feslShiftStr_clean (t : Nat) {k : List Nat} (tail : List Nat)
    (hmem : t ∉ k) (hval : validUtf8 k = true) :
    feslShiftStr t (k ++ t :: tail) = (.ok k, tail) := by
  unfold feslShiftStr feslShiftSlice feslIndexOf
  rw [findIdx_clean hmem tail 0]
  simp only [Nat.zero_add, List.take_left, drop_len_succ, hval, if_true]

theorem feslRead_record {k v : List Nat} (rest : List Nat) (hp : WfFeslPair (k, v)) :
    feslRead (k ++ 61 :: (v ++ 10 :: rest)) = (.ok (k, v), rest) := by
  obtain ⟨hk, hv, hk61, -, -, hv10⟩ := hp
  unfold feslRead
  simp only [feslShiftStr_clean 61 (v ++ 10 :: rest) hk61 hk,
    feslShiftStr_clean 10 rest hv10 hv]

theorem feslNext_record {k v : List Nat} (rest : List Nat) (hp : WfFeslPair (k, v)) :
    feslNext (k ++ 61 :: (v ++ 10 :: rest)) = some (.ok (k, v), rest) := by
  have hlen : (k ++ 61 :: (v ++ 10 :: rest)).length
      = k.length + v.length + rest.length + 2 := by
    simp only [List.length_append, List.length_cons]
    omega
  unfold feslNext
  rw [if_neg (by omega), if_neg (by omega), feslRead_record rest hp]

theorem feslNext_term : feslNext [0] = none := by decide

theorem feslRunFuel_encode (ps : List (List Nat × List Nat)) (h : ∀ p ∈ ps, WfFeslPair p) :
    ∀ fuel, (encodeRecords ps).length + 2 ≤ fuel →
      feslRunFuel fuel (encodeRecords ps ++ [0]) = some (ps.map (fun p => .ok p)) := by
  induction ps with
  | nil =>
    intro fuel hf
    obtain ⟨f, rfl⟩ : ∃ f, fuel = f + 1 := ⟨fuel - 1, by omega⟩
    show feslRunFuel (f + 1) ([] ++ [0]) = some []
    rw [List.nil_append]
    simp only [feslRunFuel, feslNext_term]
  | cons p ps ih =>
    intro fuel hf
    obtain ⟨k, v⟩ := p
    have hwf : WfFeslPair (k, v) := h _ (List.mem_cons_self _ _)
    have hrest : ∀ q ∈ ps, WfFeslPair q := fun q hq => h q (List.mem_cons_of_mem _ hq)
    obtain ⟨f, rfl⟩ : ∃ f, fuel = f + 1 := ⟨fuel - 1, by omega⟩
    have harr : encodeRecords ((k, v) :: ps) ++ [0]
        = k ++ 61 :: (v ++ 10 :: (encodeRecords ps ++ [0])) := by
      simp [encodeRecords, List.append_assoc]
    rw [harr]
    have hlen : (encodeRecords ((k, v) :: ps)).length
        = k.length + v.length + 2 + (encodeRecords ps).length := by
      simp [encodeRecords]
      omega
    simp only [feslRunFuel, feslNext_record _ hwf, ih hrest f (by omega), List.map_cons]
    rfl

theorem feslPushAll_spec (b : FeslMessageBuilder) (ps : List (List Nat × List Nat)) :
    feslPushAll b ps = ⟨b.cmd, b.type_and_id, b.len + recordsLen ps, b.buf ++ ps⟩ := by
  induction ps generalizing b with
  | nil => simp [feslPushAll, recordsLen]
  | cons p ps ih =>
    obtain ⟨k, v⟩ := p
    have hstep : feslPushAll b ((k, v) :: ps) = feslPushAll (b.push k v) ps := rfl
    rw [hstep, ih]
    simp only [FeslMessageBuilder.push, recordsLen, FeslMessageBuilder.mk.injEq,
      List.append_assoc, List.singleton_append]
    refine ⟨trivial, trivial, by omega, trivial⟩

theorem new_ok {cmd : List Nat} {t : FeslMessageType} {id : Nat} {b : FeslMessageBuilder}
    (h : FeslMessageBuilder.new cmd t id = .ok b) :
    cmd.length = 4 ∧ b = ⟨cmd, ((t.val &&& 0xf0) <<< 24) ||| (id &&& 0xfffffff), 13, []⟩ := by
  unfold FeslMessageBuilder.new at h
  split at h
  · exact absurd h (by simp)
  · next hc =>
    simp only [ne_eq, Decidable.not_not] at hc
    injection h with h
    exact ⟨hc, h.symm⟩

theorem build_data_eq {cmd : List Nat} {t : FeslMessageType} {id : Nat} {b : FeslMessageBuilder}
    (hb : FeslMessageBuilder.new cmd t id = .ok b) (ps : List (List Nat × List Nat)) :
    (feslPushAll b ps).build.data
      = cmd ++ be32 (((t.val &&& 0xf0) <<< 24) ||| (id &&& 0xfffffff))
          ++ be32 ((13 + recordsLen ps) % 2 ^ 32) ++ encodeRecords ps ++ [0] := by
  obtain ⟨h4, rfl⟩ := new_ok hb
  rw [feslPushAll_spec]
  simp [FeslMessageBuilder.build]

theorem data4_eq {cmd rest : List Nat} (h : cmd.length = 4) (A : Nat) :
    (cmd ++ (be32 A ++ rest)).getD 4 0 = A / 2 ^ 24 % 256 := by
  rw [List.getD_eq_getElem?_getD, List.getElem?_append_right (by omega)]
  simp [h, be32]

theorem getType_of_data {m : FeslMessage} {cmd rest : List Nat} (t : FeslMessageType) (id : Nat)
    (hd : m.data = cmd ++ (be32 (((t.val &&& 0xf0) <<< 24) ||| (id &&& 0xfffffff)) ++ rest))
    (h4 : cmd.length = 4) :
    m.get_type = .ok t := by
  unfold FeslMessage.get_type
  rw [hd, data4_eq h4, typeAndId_eq]
  have he : id % 2 ^ 28 < 2 ^ 28 := Nat.mod_lt _ (by norm_num)
  set e := id % 2 ^ 28 with hedef
  set f := e / 2 ^ 24 with hfdef
  have h16 : f < 16 := by
    rw [hfdef]
    norm_num at he ⊢
    omega
  cases t
  · have hq : (FeslMessageType.SingleClient.val * 2 ^ 24 + e) / 2 ^ 24 % 256 = 192 + f := by
      simp only [FeslMessageType.val, hfdef]
      norm_num
      omega
    rw [hq]
    interval_cases f <;> decide
  · have hq : (FeslMessageType.SingleServer.val * 2 ^ 24 + e) / 2 ^ 24 % 256 = 128 + f := by
      simp only [FeslMessageType.val, hfdef]
      norm_num
      omega
    rw [hq]
    interval_cases f <;> decide
  · have hq : (FeslMessageType.MultiClient.val * 2 ^ 24 + e) / 2 ^ 24 % 256 = 240 + f := by
      simp only [FeslMessageType.val, hfdef]
      norm_num
      omega
    rw [hq]
    interval_cases f <;> decide
  · have hq : (FeslMessageType.MultiServer.val * 2 ^ 24 + e) / 2 ^ 24 % 256 = 176 + f := by
      simp only [FeslMessageType.val, hfdef]
      norm_num
      omega
    rw [hq]
    interval_cases f <;> decide

theorem getId_of_data {m : FeslMessage} {cmd rest : List Nat} (t : FeslMessageType) (id : Nat)
    (hd : m.data = cmd ++ (be32 (((t.val &&& 0xf0) <<< 24) ||| (id &&& 0xfffffff)) ++ rest))
    (h4 : cmd.length = 4) (hid : id < 2 ^ 28) :
    m.get_id = id := by
  unfold FeslMessage.get_id
  rw [hd, List.drop_left' h4, beRead32_take _ 8 (by omega),
    beRead32_append_be32 _ _ (typeAndId_lt t id), mask28_eq_mod, typeAndId_eq]
  cases t <;>
    · simp only [FeslMessageType.val]
      norm_num at hid ⊢
      omega

theorem getCmd_of_data {m : FeslMessage} {cmd rest : List Nat}
    (hd : m.data = cmd ++ rest) (h4 : cmd.length = 4) (hu : validUtf8 cmd = true) :
    m.get_cmd = some cmd := by
  unfold FeslMessage.get_cmd
  rw [hd, List.take_left' h4, hu]
  rfl

theorem feslMsgItems_of_build {cmd : List Nat} {t : FeslMessageType} {id : Nat}
    {b : FeslMessageBuilder} (ps : List (List Nat × List Nat))
    (hb : FeslMessageBuilder.new cmd t id = .ok b) (hps : ∀ p ∈ ps, WfFeslPair p) :
    feslMsgItems ((feslPushAll b ps).build) = some (ps.map (fun p => .ok p)) := by
  obtain ⟨h4, -⟩ := new_ok hb
  have hdata := build_data_eq hb ps
  have hdrop : (feslPushAll b ps).build.data.drop 12 = encodeRecords ps ++ [0] := by
    rw [hdata]
    have hsplit : cmd ++ be32 (((t.val &&& 0xf0) <<< 24) ||| (id &&& 0xfffffff))
          ++ be32 ((13 + recordsLen ps) % 2 ^ 32) ++ encodeRecords ps ++ [0]
        = (cmd ++ be32 (((t.val &&& 0xf0) <<< 24) ||| (id &&& 0xfffffff))
            ++ be32 ((13 + recordsLen ps) % 2 ^ 32)) ++ (encodeRecords ps ++ [0]) := by
      simp [List.append_assoc]
    rw [hsplit, List.drop_left' (by simp [be32, h4])]
  unfold feslMsgItems feslRun
  rw [hdrop]
  exact feslRunFuel_encode ps hps _ (by simp)

theorem feslEnd_eq_nil (s : List Nat) : feslEnd s = [] := List.drop_length s

theorem encodeRecords_length (ps : List (List Nat × List Nat)) :
    (encodeRecords ps).length = recordsLen ps := by
  induction ps with
  | nil => rfl
  | cons p ps ih =>
    obtain ⟨k, v⟩ := p
    simp only [encodeRecords, recordsLen, List.length_append, List.length_cons, ih]
    omega

/-- C1: building a message from a 4-byte command, a valid type, an id below
2^28 and pairs free of `=` and newline bytes, then iterating the result,
yields exactly the original pairs in order with no error item, and the three
header accessors return the original command, type and id. -/
theorem fesl_build_roundtrip (cmd : List Nat) (t : FeslMessageType) (id : Nat)
    (ps : List (List Nat × List Nat)) (b : FeslMessageBuilder)
    (hcmd : validUtf8 cmd = true) (hid : id < 2 ^ 28)
    (hps : ∀ p ∈ ps, WfFeslPair p)
    (hb : FeslMessageBuilder.new cmd t id = .ok b) :
    feslMsgItems ((feslPushAll b ps).build) = some (ps.map (fun p => .ok p))
    ∧ ((feslPushAll b ps).build).get_cmd = some cmd
    ∧ ((feslPushAll b ps).build).get_type = .ok t
    ∧ ((feslPushAll b ps).build).get_id = id := by
  obtain ⟨h4, -⟩ := new_ok hb
  have hdata := build_data_eq hb ps
  have hdata2 : (feslPushAll b ps).build.data
      = cmd ++ (be32 (((t.val &&& 0xf0) <<< 24) ||| (id &&& 0xfffffff))
          ++ (be32 ((13 + recordsLen ps) % 2 ^ 32) ++ (encodeRecords ps ++ [0]))) := by
    rw [hdata]
    simp [List.append_assoc]
  exact ⟨feslMsgItems_of_build ps hb hps, getCmd_of_data hdata2 h4 hcmd,
    getType_of_data t id hdata2 h4, getId_of_data t id hdata2 h4 hid⟩

theorem fesl_build_roundtrip_witness :
    feslMsgItems ((feslPushAll (⟨[102, 115, 121, 115], 3221225473, 13, []⟩ : FeslMessageBuilder)
        [([84, 88, 78], [72, 101, 108, 108, 111])]).build)
      = some ([([84, 88, 78], [72, 101, 108, 108, 111])].map (fun p => .ok p))
    ∧ ((feslPushAll (⟨[102, 115, 121, 115], 3221225473, 13, []⟩ : FeslMessageBuilder)
        [([84, 88, 78], [72, 101, 108, 108, 111])]).build).get_cmd = some [102, 115, 121, 115]
    ∧ ((feslPushAll (⟨[102, 115, 121, 115], 3221225473, 13, []⟩ : FeslMessageBuilder)
        [([84, 88, 78], [72, 101, 108, 108, 111])]).build).get_type = .ok .SingleClient
    ∧ ((feslPushAll (⟨[102, 115, 121, 115], 3221225473, 13, []⟩ : FeslMessageBuilder)
        [([84, 88, 78], [72, 101, 108, 108, 111])]).build).get_id = 1 :=
  fesl_build_roundtrip [102, 115, 121, 115] .SingleClient 1
    [([84, 88, 78], [72, 101, 108, 108, 111])] ⟨[102, 115, 121, 115], 3221225473, 13, []⟩
    (by decide) (by decide) (by decide) (by decide)

/-- C7: every error item the FESL iterator yields leaves the iterator in the
empty state, from which `next` returns `none` forever; in particular the body
`a=b` (no newline before end-of-body) yields exactly one `ExpectedDelimiter`
item and nothing afterwards. -/
theorem fesl_error_poisons :
    (∀ (src rest : List Nat) (e : FeslMessageError),
        feslNext src = some (.error e, rest) → rest = [] ∧ feslNext rest = none)
    ∧ feslRun [97, 61, 98] = some [.error .ExpectedDelimiter] := by
  constructor
  · intro src rest e h
    have hrest : rest = [] := by
      unfold feslNext at h
      split_ifs at h
      · split at h
        · exact Option.noConfusion h
        · simp only [Option.some.injEq, Prod.mk.injEq] at h
          rw [← h.2, feslEnd_eq_nil]
      · split at h
        · simp only [Option.some.injEq, Prod.mk.injEq] at h
          exact absurd h.1 (by simp)
        · simp only [Option.some.injEq, Prod.mk.injEq] at h
          rw [← h.2, feslEnd_eq_nil]
    subst hrest
    exact ⟨rfl, by decide⟩
  · decide

theorem fesl_error_poisons_witness :
    ([] : List Nat) = [] ∧ feslNext ([] : List Nat) = none :=
  fesl_error_poisons.1 [97] [] .ExpectedDelimiter (by decide)

theorem nibble_shift_eq (t : FeslMessageType) :
    ((t.val >>> 4) <<< 28) = ((t.val &&& 0xf0) <<< 24) := by
  cases t <;> decide

/-- C8 (amended): provided the total length `13 + Σ (len k + 1 + len v + 1)`
fits in a `u32`, `build` lays the buffer out as the 4 command bytes, the
big-endian word `(type_nibble <<< 28) ||| (id &&& 0xfffffff)`, the big-endian
total length, each record as `key = value \n` in push order and a trailing
0x00, and the length field equals the actual buffer length.  (Without the
fitting hypothesis the `self.len as u32` cast truncates the field modulo
`2 ^ 32`.) -/
theorem fesl_build_layout (cmd : List Nat) (t : FeslMessageType) (id : Nat)
    (ps : List (List Nat × List Nat)) (b : FeslMessageBuilder)
    (hb : FeslMessageBuilder.new cmd t id = .ok b)
    (hfit : 13 + recordsLen ps < 2 ^ 32) :
    (feslPushAll b ps).build.data
      = cmd ++ be32 (((t.val >>> 4) <<< 28) ||| (id &&& 0xfffffff))
          ++ be32 (13 + recordsLen ps) ++ encodeRecords ps ++ [0]
    ∧ beRead32 ((feslPushAll b ps).build.data.drop 8)
        = (feslPushAll b ps).build.data.length := by
  obtain ⟨h4, -⟩ := new_ok hb
  have hdata := build_data_eq hb ps
  have hmod : (13 + recordsLen ps) % 2 ^ 32 = 13 + recordsLen ps := Nat.mod_eq_of_lt hfit
  constructor
  · rw [hdata, hmod, nibble_shift_eq]
  · have hsplit : (feslPushAll b ps).build.data
        = (cmd ++ be32 (((t.val &&& 0xf0) <<< 24) ||| (id &&& 0xfffffff)))
            ++ (be32 ((13 + recordsLen ps) % 2 ^ 32) ++ (encodeRecords ps ++ [0])) := by
      rw [hdata]
      simp [List.append_assoc]
    rw [hsplit, List.drop_left' (by simp [be32, h4]), hmod,
      beRead32_append_be32 _ _ hfit]
    simp [be32, h4, encodeRecords_length]
    omega

theorem fesl_build_layout_witness :
    (feslPushAll (⟨[102, 115, 121, 115], 3221225473, 13, []⟩ : FeslMessageBuilder)
        [([84, 88, 78], [72, 101, 108, 108, 111])]).build.data
      = [102, 115, 121, 115]
          ++ be32 (((FeslMessageType.SingleClient.val >>> 4) <<< 28) ||| (1 &&& 0xfffffff))
          ++ be32 (13 + recordsLen [([84, 88, 78], [72, 101, 108, 108, 111])])
          ++ encodeRecords [([84, 88, 78], [72, 101, 108, 108, 111])] ++ [0]
    ∧ beRead32 ((feslPushAll (⟨[102, 115, 121, 115], 3221225473, 13, []⟩ : FeslMessageBuilder)
          [([84, 88, 78], [72, 101, 108, 108, 111])]).build.data.drop 8)
        = (feslPushAll (⟨[102, 115, 121, 115], 3221225473, 13, []⟩ : FeslMessageBuilder)
          [([84, 88, 78], [72, 101, 108, 108, 111])]).build.data.length :=
  fesl_build_layout [102, 115, 121, 115] .SingleClient 1
    [([84, 88, 78], [72, 101, 108, 108, 111])] ⟨[102, 115, 121, 115], 3221225473, 13, []⟩
    (by decide) (by decide)

theorem fesl_layout_cex_aux (k : List Nat) (hk : k.length = 2 ^ 32) :
    beRead32 ((feslPushAll (⟨[102, 115, 121, 115], 3221225473, 13, []⟩ : FeslMessageBuilder)
          [(k, [])]).build.data.drop 8)
      ≠ (feslPushAll (⟨[102, 115, 121, 115], 3221225473, 13, []⟩ : FeslMessageBuilder)
          [(k, [])]).build.data.length := by
  have hb : FeslMessageBuilder.new [102, 115, 121, 115] .SingleClient 1
      = .ok ⟨[102, 115, 121, 115], 3221225473, 13, []⟩ := by decide
  have hdata := build_data_eq hb [(k, [])]
  have hR : recordsLen [(k, [])] = 2 ^ 32 + 2 := by
    simp only [recordsLen, List.length_nil, hk]
  have hsplit : (feslPushAll (⟨[102, 115, 121, 115], 3221225473, 13, []⟩ : FeslMessageBuilder)
        [(k, [])]).build.data
      = ([102, 115, 121, 115]
            ++ be32 (((FeslMessageType.SingleClient.val &&& 0xf0) <<< 24) ||| (1 &&& 0xfffffff)))
          ++ (be32 ((13 + recordsLen [(k, [])]) % 2 ^ 32)
            ++ (encodeRecords [(k, [])] ++ [0])) := by
    rw [hdata]
    simp [List.append_assoc]
  rw [hsplit, List.drop_left' (by simp [be32])]
  rw [hR, (by norm_num : (13 + (2 ^ 32 + 2)) % 2 ^ 32 = 15),
    beRead32_append_be32 15 _ (by norm_num)]
  simp only [List.length_append, List.length_cons, List.length_nil, be32,
    encodeRecords_length, hR]
  norm_num

/-- C8 counterexample: the claim as stated fails for a pushed pair whose key
is `2 ^ 32` bytes of `a` — the `u32` length field truncates to 15 while the
actual buffer length is `2 ^ 32 + 15`, so the field equals neither the sum
nor the buffer length. -/
theorem fesl_build_layout_counterexample :
    beRead32 ((feslPushAll (⟨[102, 115, 121, 115], 3221225473, 13, []⟩ : FeslMessageBuilder)
          [(List.replicate (2 ^ 32) 97, [])]).build.data.drop 8)
      ≠ (feslPushAll (⟨[102, 115, 121, 115], 3221225473, 13, []⟩ : FeslMessageBuilder)
          [(List.replicate (2 ^ 32) 97, [])]).build.data.length :=
  fesl_layout_cex_aux (List.replicate (2 ^ 32) 97) (List.length_replicate _ _)

/-! ### Claims on `FeslMessage::from_read` -/

/-- C4 (code defect): on a header whose length field decodes to 0 (< 12),
`from_read` hits the unchecked `len - 12` subtraction — no typed
invalid-length error exists or is returned. -/
theorem from_read_underflow_on_short_len :
    FeslMessage.from_read (List.replicate 12 0) = .lenUnderflow := by decide

/-- C5 (code defect): a header declaring total length 20 followed by only 3
body bytes is accepted: `from_read` returns `ok` with a 15-byte message whose
declared length field still reads 20 — not an `IoError`. -/
theorem from_read_accepts_short_body :
    FeslMessage.from_read [99, 99, 99, 99, 0, 0, 0, 0, 0, 0, 0, 20, 1, 2, 3]
      = .ok ⟨[99, 99, 99, 99, 0, 0, 0, 0, 0, 0, 0, 20, 1, 2, 3]⟩
    ∧ beRead32 ([99, 99, 99, 99, 0, 0, 0, 0, 0, 0, 0, 20, 1, 2, 3].drop 8) = 20
    ∧ [99, 99, 99, 99, 0, 0, 0, 0, 0, 0, 0, 20, 1, 2, 3].length = 15 := by decide

/-! ### GameSpy iterator on well-formed pairs -/

/-- The byte layout of a pair list as produced by the builder's token loop. -/
def gsEncodePairs : List (List Nat × List Nat) → List Nat
  | [] => []
  | p :: rest => 92 :: (p.1 ++ (92 :: (p.2 ++ gsEncodePairs rest)))

/-- The flat token list a pair list turns into inside the builder. -/
def flattenPairs : List (List Nat × List Nat) → List (List Nat)
  | [] => []
  | p :: rest => p.1 :: p.2 :: flattenPairs rest

theorem gsPushAll_buf (b : GameSpyPacketBuilder) (ps : List (List Nat × List Nat)) :
    (gsPushAll b ps).buf = b.buf ++ flattenPairs ps := by
  induction ps generalizing b with
  | nil => simp [gsPushAll, flattenPairs]
  | cons p ps ih =>
    have hstep : gsPushAll b (p :: ps) = gsPushAll (b.push p.1 p.2) ps := rfl
    rw [hstep, ih]
    simp [GameSpyPacketBuilder.push, flattenPairs]

theorem encodeItems_flatten (ps : List (List Nat × List Nat)) :
    encodeItems (flattenPairs ps) = gsEncodePairs ps := by
  induction ps with
  | nil => rfl
  | cons p ps ih =>
    simp [flattenPairs, encodeItems, gsEncodePairs, ih]

theorem gsShiftStr_mid {k : List Nat} (rest : List Nat)
    (hk : 92 ∉ k) (hu : validUtf8 k = true) :
    gsShiftStr 92 (92 :: (k ++ 92 :: rest)) = some (.ok k, 92 :: rest) := by
  unfold gsShiftStr gsShiftSlice
  simp only [List.drop_succ_cons, List.drop_zero, ne_eq, not_true_eq_false, if_false,
    findIdx_clean hk rest 0, Nat.zero_add, Nat.add_sub_cancel, List.take_left,
    List.drop_left, hu, if_true]

theorem gsShiftStr_last {v : List Nat} (hv : 92 ∉ v) (hu : validUtf8 v = true) :
    gsShiftStr 92 (92 :: v) = some (.ok v, []) := by
  unfold gsShiftStr gsShiftSlice
  simp only [List.drop_succ_cons, List.drop_zero, ne_eq, not_true_eq_false, if_false,
    findIdx_none hv 0, List.length_cons, Nat.add_sub_cancel, List.take_length,
    List.drop_length, hu, if_true]

theorem gsNext_pair {k v : List Nat} (ps : List (List Nat × List Nat)) (hp : WfGsPair (k, v)) :
    gsNext (gsEncodePairs ((k, v) :: ps)) = .yield (.ok (k, v)) (gsEncodePairs ps) := by
  obtain ⟨hku, hvu, hk, hv⟩ := hp
  cases ps with
  | nil =>
    show gsNext (92 :: (k ++ (92 :: (v ++ [])))) = _
    rw [List.append_nil]
    unfold gsNext
    rw [if_neg (by simp)]
    unfold gsRead
    simp only [gsShiftStr_mid v hk hku, gsShiftStr_last hv hvu]
    rfl
  | cons q ps2 =>
    show gsNext (92 :: (k ++ (92 :: (v ++ (92 :: (q.1 ++ (92 :: (q.2 ++ gsEncodePairs ps2)))))))) = _
    unfold gsNext
    rw [if_neg (by simp)]
    unfold gsRead
    simp only [gsShiftStr_mid _ hk hku, gsShiftStr_mid _ hv hvu]
    rfl

theorem gsRunFuel_encode (ps : List (List Nat × List Nat)) (h : ∀ p ∈ ps, WfGsPair p) :
    ∀ fuel, (gsEncodePairs ps).length + 1 ≤ fuel →
      gsRunFuel fuel (gsEncodePairs ps) = .yields (ps.map (fun p => .ok p)) := by
  induction ps with
  | nil =>
    intro fuel hf
    obtain ⟨f, rfl⟩ : ∃ f, fuel = f + 1 := ⟨fuel - 1, by omega⟩
    rfl
  | cons p ps ih =>
    intro fuel hf
    obtain ⟨k, v⟩ := p
    obtain ⟨f, rfl⟩ : ∃ f, fuel = f + 1 := ⟨fuel - 1, by omega⟩
    have hlen : (gsEncodePairs ((k, v) :: ps)).length
        = k.length + v.length + 2 + (gsEncodePairs ps).length := by
      simp [gsEncodePairs]
      omega
    simp only [gsRunFuel, gsNext_pair ps (h _ (List.mem_cons_self _ _)),
      ih (fun q hq => h q (List.mem_cons_of_mem _ hq)) f (by omega), List.map_cons]

theorem gsBuild_intoIter (ps : List (List Nat × List Nat)) :
    (gsPushAll GameSpyPacketBuilder.new ps).build.intoIter = some (gsEncodePairs ps) := by
  have hdata : (gsPushAll GameSpyPacketBuilder.new ps).build.data
      = gsEncodePairs ps ++ TERM := by
    show encodeItems (gsPushAll GameSpyPacketBuilder.new ps).buf ++ TERM = _
    rw [gsPushAll_buf]
    show encodeItems ([] ++ flattenPairs ps) ++ TERM = _
    rw [List.nil_append, encodeItems_flatten]
  unfold GameSpyPacket.intoIter
  rw [hdata]
  have hlen : (gsEncodePairs ps ++ TERM).length = (gsEncodePairs ps).length + 7 := by
    simp [TERM]
  rw [hlen, if_neg (by omega),
    (by omega : (gsEncodePairs ps).length + 7 - 7 = (gsEncodePairs ps).length),
    List.take_left]

/-- C9: building a GameSpy packet from pairs free of backslashes and then
iterating the packet yields exactly the original pairs in order with no error
items; in particular the pair `(gamename, bfield1942)` builds to the 27-byte
packet `\gamename\bfield1942\final\`. -/
theorem gs_build_roundtrip (ps : List (List Nat × List Nat))
    (hps : ∀ p ∈ ps, WfGsPair p) :
    gsPacketItems ((gsPushAll GameSpyPacketBuilder.new ps).build)
      = some (.yields (ps.map (fun p => .ok p)))
    ∧ (gsPushAll GameSpyPacketBuilder.new
        [([103, 97, 109, 101, 110, 97, 109, 101],
          [98, 102, 105, 101, 108, 100, 49, 57, 52, 50])]).build.data
      = [92, 103, 97, 109, 101, 110, 97, 109, 101, 92, 98, 102, 105, 101, 108, 100,
          49, 57, 52, 50, 92, 102, 105, 110, 97, 108, 92] := by
  constructor
  · unfold gsPacketItems
    rw [gsBuild_intoIter]
    show some (gsRun (gsEncodePairs ps)) = _
    unfold gsRun
    rw [gsRunFuel_encode ps hps _ (by omega)]
  · decide

theorem gs_build_roundtrip_witness :
    gsPacketItems ((gsPushAll GameSpyPacketBuilder.new
        [([103, 97, 109, 101, 110, 97, 109, 101],
          [98, 102, 105, 101, 108, 100, 49, 57, 52, 50])]).build)
      = some (.yields ([([103, 97, 109, 101, 110, 97, 109, 101],
          [98, 102, 105, 101, 108, 100, 49, 57, 52, 50])].map (fun p => .ok p)))
    ∧ (gsPushAll GameSpyPacketBuilder.new
        [([103, 97, 109, 101, 110, 97, 109, 101],
          [98, 102, 105, 101, 108, 100, 49, 57, 52, 50])]).build.data
      = [92, 103, 97, 109, 101, 110, 97, 109, 101, 92, 98, 102, 105, 101, 108, 100,
          49, 57, 52, 50, 92, 102, 105, 110, 97, 108, 92] :=
  gs_build_roundtrip
    [([103, 97, 109, 101, 110, 97, 109, 101], [98, 102, 105, 101, 108, 100, 49, 57, 52, 50])]
    (by decide)

/-- C6 (code defect): a body with a missing leading backslash is recovered as
a single `ExpectedDelimiter` item followed by end of iteration, but a body
consisting of a key token with no following value token (here `\k`) makes
`shift_slice` read `src[0]` of the empty remainder: an out-of-bounds panic,
not an error item. -/
theorem gs_iterator_fault_handling :
    gsRun [107] = .yields [.error .ExpectedDelimiter]
    ∧ gsRun [92, 107] = .panicked := by decide

/-- C10: `from_box` wraps any buffer with no validation, so the terminator
invariant is not established at construction; iterating a packet shorter than
7 bytes panics in the body-slice computation `data.len() - 7`. -/
theorem from_box_unchecked (data : List Nat) (h : data.length < 7) :
    (GameSpyPacket.from_box data).data = data
    ∧ (GameSpyPacket.from_box data).intoIter = none := by
  refine ⟨rfl, ?_⟩
  unfold GameSpyPacket.intoIter GameSpyPacket.from_box
  rw [if_pos h]

theorem from_box_unchecked_witness :
    (GameSpyPacket.from_box [97]).data = [97]
    ∧ (GameSpyPacket.from_box [97]).intoIter = none :=
  from_box_unchecked [97] (by decide)

/-! ### Correctness of the rank automaton against `maxBorder` -/

theorem take7_term : TERM.take 7 = TERM := by decide

theorem suffix_snoc_iff {u s : List Nat} {c b : Nat} :
    (u ++ [c]) <:+ (s ++ [b]) ↔ c = b ∧ u <:+ s := by
  constructor
  · rintro ⟨t, ht⟩
    rw [← List.append_assoc] at ht
    obtain ⟨h1, h2⟩ := List.append_inj' ht rfl
    have hcb : c = b := by
      injection h2
    exact ⟨hcb, t, h1⟩
  · rintro ⟨rfl, t, rfl⟩
    exact ⟨t, by simp [List.append_assoc]⟩

theorem maxBorder_spec (s : List Nat) :
    TERM.take (maxBorder s) <:+ s
    ∧ (∀ q, maxBorder s < q → q ≤ 7 → ¬ TERM.take q <:+ s)
    ∧ maxBorder s ≤ 7 := by
  unfold maxBorder
  split_ifs with h7 h6 h5 h4 h3 h2 h1
  · exact ⟨h7, fun q hq hle => by omega, by omega⟩
  · exact ⟨h6, fun q hq hle => by interval_cases q <;> assumption, by omega⟩
  · exact ⟨h5, fun q hq hle => by interval_cases q <;> assumption, by omega⟩
  · exact ⟨h4, fun q hq hle => by interval_cases q <;> assumption, by omega⟩
  · exact ⟨h3, fun q hq hle => by interval_cases q <;> assumption, by omega⟩
  · exact ⟨h2, fun q hq hle => by interval_cases q <;> assumption, by omega⟩
  · exact ⟨h1, fun q hq hle => by interval_cases q <;> assumption, by omega⟩
  · exact ⟨List.nil_suffix, fun q hq hle => by interval_cases q <;> assumption, by omega⟩

theorem maxBorder_eq (s : List Nat) (r : Nat) (hr : TERM.take r <:+ s)
    (hmax : ∀ q, r < q → q ≤ 7 → ¬ TERM.take q <:+ s) (hr7 : r ≤ 7) :
    maxBorder s = r := by
  obtain ⟨h1, h2, h3⟩ := maxBorder_spec s
  rcases Nat.lt_trichotomy (maxBorder s) r with h | h | h
  · exact absurd hr (h2 r h hr7)
  · exact h
  · exact absurd h1 (hmax _ h h3)

theorem maxBorder_eq_seven {s : List Nat} (h : TERM.take 7 <:+ s) : maxBorder s = 7 := by
  unfold maxBorder
  rw [if_pos h]

theorem maxBorder_lt_seven {s : List Nat} (h : ¬ TERM.take 7 <:+ s) : maxBorder s < 7 := by
  obtain ⟨hsfx, -, hle⟩ := maxBorder_spec s
  rcases Nat.lt_or_ge (maxBorder s) 7 with h1 | h1
  · exact h1
  · have he : maxBorder s = 7 := by omega
    rw [he] at hsfx
    exact absurd hsfx h

theorem maxBorder_snoc_aux (s : List Nat) (b : Nat) (r : Nat)
    (hsfx : TERM.take r <:+ s) (hmax : ∀ q, r < q → q ≤ 7 → ¬ TERM.take q <:+ s)
    (hr6 : r ≤ 6) :
    maxBorder (s ++ [b]) = gsStep r b := by
  unfold gsStep
  split_ifs with hb1 hb2
  · -- the byte extends the current partial match
    apply maxBorder_eq
    · have hdecomp : TERM.take (r + 1) = TERM.take r ++ [TERM.getD r 0] := by
        interval_cases r <;> decide
      rw [hdecomp]
      exact suffix_snoc_iff.mpr ⟨hb1.symm, hsfx⟩
    · intro q hq hq7 hcontra
      have h1q : 1 ≤ q := by omega
      have hdecomp : TERM.take q = TERM.take (q - 1) ++ [TERM.getD (q - 1) 0] := by
        interval_cases q <;> decide
      rw [hdecomp] at hcontra
      exact hmax (q - 1) (by omega) (by omega) (suffix_snoc_iff.mp hcontra).2
    · omega
  · -- mismatch, but the byte is a backslash: restart at rank 1
    apply maxBorder_eq
    · have hdecomp : TERM.take 1 = [] ++ [TERM.getD 0 0] := by decide
      rw [hdecomp]
      exact suffix_snoc_iff.mpr ⟨hb2.symm, List.nil_suffix⟩
    · intro q hq hq7 hcontra
      have h1q : 1 ≤ q := by omega
      have hdecomp : TERM.take q = TERM.take (q - 1) ++ [TERM.getD (q - 1) 0] := by
        interval_cases q <;> decide
      rw [hdecomp] at hcontra
      obtain ⟨hbq, hsuf⟩ := suffix_snoc_iff.mp hcontra
      have hq16 : q - 1 = 6 := by
        have hj : ∀ j, j ≤ 6 → 1 ≤ j → TERM.getD j 0 = 92 → j = 6 := by decide
        have h920 : TERM.getD 0 0 = 92 := by decide
        rw [h920] at hb2
        exact hj (q - 1) (by omega) (by omega) (by rw [hbq, hb2])
      have hrne : r ≠ 6 := by
        intro hr
        apply hb1
        rw [hb2, hr]
        decide
      rw [hq16] at hsuf
      exact hmax 6 (by omega) (by omega) hsuf
    · omega
  · -- mismatch and not a backslash: reset to rank 0
    apply maxBorder_eq
    · exact List.nil_suffix
    · intro q hq hq7 hcontra
      have h1q : 1 ≤ q := by omega
      have hdecomp : TERM.take q = TERM.take (q - 1) ++ [TERM.getD (q - 1) 0] := by
        interval_cases q <;> decide
      rw [hdecomp] at hcontra
      obtain ⟨hbq, hsuf⟩ := suffix_snoc_iff.mp hcontra
      rcases Nat.eq_zero_or_pos (q - 1) with hq0 | hq1
      · rw [hq0] at hbq
        exact hb2 hbq.symm
      · have hqr : q - 1 ≤ r := by
          by_contra hgt
          exact hmax (q - 1) (by omega) (by omega) hsuf
        rcases Nat.lt_or_ge (q - 1) r with hlt | hge
        · have hTr : TERM.take (q - 1) <:+ TERM.take r :=
            List.suffix_of_suffix_length_le hsuf hsfx
              (by simp [List.length_take, TERM]; omega)
          have hnb : ∀ m, m < 7 → ∀ r2, r2 < 7 → 1 ≤ m → m < r2 →
              ¬ TERM.take m <:+ TERM.take r2 := by decide
          exact hnb (q - 1) (by omega) r (by omega) hq1 hlt hTr
        · have he : q - 1 = r := by omega
          rw [he] at hbq
          exact hb1 hbq.symm
    · omega

theorem maxBorder_snoc (s : List Nat) (b : Nat) (h7 : ¬ TERM.take 7 <:+ s) :
    maxBorder (s ++ [b]) = gsStep (maxBorder s) b := by
  obtain ⟨hsfx, hmax, hle⟩ := maxBorder_spec s
  have hr6 : maxBorder s ≤ 6 := by
    have := maxBorder_lt_seven h7
    omega
  exact maxBorder_snoc_aux s b (maxBorder s) hsfx hmax hr6

theorem maxBorder_nil : maxBorder [] = 0 := by decide

theorem scanChunk_no_term (s : List Nat) : ∀ acc : List Nat,
    (∀ j, j ≤ s.length → ¬ TERM.take 7 <:+ acc ++ s.take j) →
    scanChunk (maxBorder acc) s = (s.length, maxBorder (acc ++ s)) := by
  induction s with
  | nil =>
    intro acc h
    simp [scanChunk]
  | cons b rest ih =>
    intro acc h
    have h0 : ¬ TERM.take 7 <:+ acc := by
      have := h 0 (by omega)
      simpa using this
    have h1 : ¬ TERM.take 7 <:+ acc ++ [b] := by
      have := h 1 (by simp)
      simpa using this
    have hstep : gsStep (maxBorder acc) b = maxBorder (acc ++ [b]) :=
      (maxBorder_snoc acc b h0).symm
    have hlt : maxBorder (acc ++ [b]) < 7 := maxBorder_lt_seven h1
    have ihh := ih (acc ++ [b]) (fun j hj => by
      have := h (j + 1) (by simp at hj ⊢; omega)
      simpa [List.take_succ_cons, List.append_assoc] using this)
    unfold scanChunk
    rw [hstep, if_neg (by omega), ihh]
    simp [List.append_assoc]

theorem scanChunk_finds_term (s : List Nat) : ∀ (acc : List Nat) (n : Nat),
    1 ≤ n → n ≤ s.length →
    (∀ j, j < n → ¬ TERM.take 7 <:+ acc ++ s.take j) →
    TERM.take 7 <:+ acc ++ s.take n →
    scanChunk (maxBorder acc) s = (n, 7) := by
  induction s with
  | nil =>
    intro acc n h1 h2 hmin hocc
    simp at h2
    omega
  | cons b rest ih =>
    intro acc n h1 hn hmin hocc
    have h0 : ¬ TERM.take 7 <:+ acc := by
      have := hmin 0 (by omega)
      simpa using this
    have hstep : gsStep (maxBorder acc) b = maxBorder (acc ++ [b]) :=
      (maxBorder_snoc acc b h0).symm
    rcases Nat.eq_or_lt_of_le h1 with he | hgt
    · -- the terminator completes at this byte
      have hocc1 : TERM.take 7 <:+ acc ++ [b] := by
        rw [← he] at hocc
        simpa using hocc
      have h7 : maxBorder (acc ++ [b]) = 7 := maxBorder_eq_seven hocc1
      unfold scanChunk
      rw [hstep, h7, if_pos (by omega), ← he]
    · -- the match is still partial after this byte
      have h1' : ¬ TERM.take 7 <:+ acc ++ [b] := by
        have := hmin 1 (by omega)
        simpa using this
      have hlt : maxBorder (acc ++ [b]) < 7 := maxBorder_lt_seven h1'
      have htake : ∀ j, acc ++ (b :: rest).take (j + 1) = (acc ++ [b]) ++ rest.take j := by
        intro j
        simp [List.take_succ_cons, List.append_assoc]
      have ihh := ih (acc ++ [b]) (n - 1) (by omega) (by simp at hn; omega)
        (fun j hj => by
          have := hmin (j + 1) (by omega)
          rwa [htake j] at this)
        (by
          have := hocc
          have he2 : n = (n - 1) + 1 := by omega
          rw [he2, htake (n - 1)] at this
          exact this)
      unfold scanChunk
      rw [hstep, if_neg (by omega), ihh]
      simp
      omega

theorem take_append_of_le (l1 l2 : List Nat) (j : Nat) (h : j ≤ l1.length) :
    (l1 ++ l2).take j = l1.take j := by
  rw [List.take_append_eq_append_take, (by omega : j - l1.length = 0)]
  simp

theorem take_append_add (l1 l2 : List Nat) (i : Nat) :
    (l1 ++ l2).take (l1.length + i) = l1 ++ l2.take i := by
  rw [List.take_append_eq_append_take, List.take_of_length_le (by omega),
    (by omega : l1.length + i - l1.length = i)]

theorem CompletePacket.length_ge (p : List Nat) (hp : CompletePacket p) : 7 ≤ p.length := by
  have := hp.1.length_le
  simpa [TERM] using this

theorem consumerNext_single_chunk (p tail2 : List Nat) (hp : CompletePacket p) (f : Nat) :
    consumerNextFuel (f + 1) 0 [] [p ++ tail2]
      = .packet ⟨p⟩ (if tail2 = [] then [] else [tail2]) := by
  obtain ⟨hsfx, hmin⟩ := hp
  have hlen7 : 7 ≤ p.length := by
    have := hsfx.length_le
    simpa [TERM] using this
  have hscan : scanChunk (maxBorder []) (p ++ tail2) = (p.length, 7) := by
    apply scanChunk_finds_term
    · omega
    · simp
    · intro j hj
      rw [List.nil_append, take_append_of_le _ _ _ (by omega), take7_term]
      exact hmin j hj
    · rw [List.nil_append, List.take_left, take7_term]
      exact hsfx
  rw [maxBorder_nil] at hscan
  unfold consumerNextFuel
  simp only [List.headD_cons, hscan]
  rw [if_pos (by omega)]
  rw [List.nil_append, List.take_left]
  simp only [gsConsume, List.drop_left]
  cases tail2 with
  | nil => simp
  | cons x xs => simp

theorem consumerNext_split_term (body tail : List Nat) (k f : Nat)
    (hk1 : 1 ≤ k) (hk6 : k ≤ 6) (hp : CompletePacket (body ++ TERM)) :
    consumerNextFuel (f + 2) 0 [] [body ++ TERM.take k, TERM.drop k ++ tail]
      = .packet ⟨body ++ TERM⟩ (if tail = [] then [] else [tail]) := by
  obtain ⟨hsfx, hmin⟩ := hp
  have hlb : (body ++ TERM).length = body.length + 7 := by simp [TERM]
  have hc1len : (body ++ TERM.take k).length = body.length + k := by
    simp [TERM]
    omega
  have hc1take : ∀ j, j ≤ body.length + k →
      (body ++ TERM.take k).take j = (body ++ TERM).take j := by
    intro j hj
    rw [List.take_append_eq_append_take, List.take_append_eq_append_take, List.take_take]
    rw [Nat.min_eq_left (by omega : j - body.length ≤ k)]
  have hnocc1 : ∀ j, j ≤ (body ++ TERM.take k).length →
      ¬ TERM.take 7 <:+ [] ++ (body ++ TERM.take k).take j := by
    intro j hj
    rw [hc1len] at hj
    rw [List.nil_append, hc1take j hj, take7_term]
    apply hmin
    omega
  have hscan1 := scanChunk_no_term (body ++ TERM.take k) [] hnocc1
  rw [maxBorder_nil, List.nil_append] at hscan1
  have hlt1 : maxBorder (body ++ TERM.take k) < 7 := by
    apply maxBorder_lt_seven
    have h := hnocc1 (body ++ TERM.take k).length (le_refl _)
    rwa [List.nil_append, List.take_length] at h
  show consumerNextFuel (f + 1 + 1) 0 [] [body ++ TERM.take k, TERM.drop k ++ tail] = _
  unfold consumerNextFuel
  simp only [List.headD_cons, hscan1]
  rw [if_neg (by omega)]
  simp only [List.nil_append, List.take_length, gsConsume, List.drop_length,
    List.length_nil, reduceIte]
  have hdk : (TERM.drop k).length = 7 - k := by simp [TERM]
  have hocc2 : TERM.take 7 <:+ (body ++ TERM.take k) ++ (TERM.drop k ++ tail).take (7 - k) := by
    have ht : (TERM.drop k ++ tail).take (7 - k) = TERM.drop k :=
      List.take_left' hdk
    rw [ht, List.append_assoc, List.take_append_drop, take7_term]
    exact hsfx
  have hmin2 : ∀ j, j < 7 - k →
      ¬ TERM.take 7 <:+ (body ++ TERM.take k) ++ (TERM.drop k ++ tail).take j := by
    intro j hj
    have ht : (TERM.drop k ++ tail).take j =
        (TERM.drop k).take j := take_append_of_le _ _ _ (by omega)
    rw [ht, List.append_assoc, ← List.take_add]
    rw [show body ++ TERM.take (k + j) = (body ++ TERM).take (body.length + (k + j)) from
      (take_append_add body TERM (k + j)).symm]
    rw [take7_term]
    apply hmin
    omega
  have hscan2 : scanChunk (maxBorder (body ++ TERM.take k)) (TERM.drop k ++ tail)
      = (7 - k, 7) := by
    apply scanChunk_finds_term
    · omega
    · simp [TERM]
    · exact hmin2
    · exact hocc2
  unfold consumerNextFuel
  simp only [List.headD_cons, hscan2]
  rw [if_pos (by omega)]
  have hmsg : (body ++ TERM.take k) ++ (TERM.drop k ++ tail).take (7 - k) = body ++ TERM := by
    rw [List.take_left' hdk, List.append_assoc, List.take_append_drop]
  rw [hmsg]
  simp only [gsConsume, List.drop_left' hdk]
  cases tail with
  | nil => simp
  | cons x xs => simp

/-- C2: delivering two complete packets in a single read chunk makes two
successive `next` calls return exactly those two packets, each carrying its
own terminator and none of the other's bytes; and a terminator split across
two read chunks still yields one packet bounded exactly at the end of the
terminator, with any following bytes left buffered for the next call. -/
theorem consumer_framing :
    (∀ (p1 p2 : List Nat) (f : Nat), CompletePacket p1 → CompletePacket p2 →
        consumerNext (f + 1) [p1 ++ p2] = .packet ⟨p1⟩ [p2]
        ∧ consumerNext (f + 1) [p2] = .packet ⟨p2⟩ [])
    ∧ (∀ (body tail : List Nat) (k f : Nat), 1 ≤ k → k ≤ 6 →
        CompletePacket (body ++ TERM) →
        consumerNext (f + 2) [body ++ TERM.take k, TERM.drop k ++ tail]
          = .packet ⟨body ++ TERM⟩ (if tail = [] then [] else [tail])) := by
  constructor
  · intro p1 p2 f hp1 hp2
    constructor
    · have h := consumerNext_single_chunk p1 p2 hp1 f
      have hne : p2 ≠ [] := by
        have h7 := CompletePacket.length_ge p2 hp2
        intro he
        rw [he] at h7
        simp at h7
      rw [if_neg hne] at h
      exact h
    · have h := consumerNext_single_chunk p2 [] hp2 f
      rw [List.append_nil] at h
      simpa using h
  · intro body tail k f hk1 hk6 hp
    exact consumerNext_split_term body tail k f hk1 hk6 hp

theorem consumer_framing_witness :
    (consumerNext 1 [TERM ++ ([92, 97, 92, 98] ++ TERM)]
        = .packet ⟨TERM⟩ [[92, 97, 92, 98] ++ TERM]
      ∧ consumerNext 1 [[92, 97, 92, 98] ++ TERM]
        = .packet ⟨[92, 97, 92, 98] ++ TERM⟩ [])
    ∧ consumerNext 2 [[] ++ TERM.take 3, TERM.drop 3 ++ [92, 120]]
        = .packet ⟨[] ++ TERM⟩ (if ([92, 120] : List Nat) = [] then [] else [[92, 120]]) :=
  ⟨consumer_framing.1 TERM ([92, 97, 92, 98] ++ TERM) 0 (by decide) (by decide),
   consumer_framing.2 [] [92, 120] 3 0 (by decide) (by decide) (by decide)⟩

/-- C3 (code defect): once the stream is exhausted, `fill_buf` returns an
empty buffer forever and the loop in `next` has no exit for that case: for
every bound on the number of loop iterations the call has still not returned,
so `next` never produces the `None` end-of-sequence signal the claim
requires. -/
theorem consumer_never_returns_on_eof : ∀ fuel, consumerNext fuel [] = .diverged := by
  suffices h : ∀ fuel rank msg, rank < 7 → consumerNextFuel fuel rank msg [] = .diverged by
    intro fuel
    exact h fuel 0 [] (by omega)
  intro fuel
  induction fuel with
  | zero =>
    intro rank msg h
    rfl
  | succ f ih =>
    intro rank msg h
    unfold consumerNextFuel
    simp only [List.headD_nil, scanChunk, gsConsume, List.take_nil, List.append_nil]
    rw [if_neg (by omega)]
    exact ih rank msg h
